import Mathlib

/-!
Shallow embedding of the clawdbot gmail-digest pipeline
(`scripts/gmail-digest.py`, per-message variant) and
(`scripts/gmail-digest-all.py`, batch variant).

Python strings are modelled as `List Char` where character-level reasoning
is needed (file contents, URL text, chunking) and as `String` where the
values are opaque (headers, snippets, prompts).  Python's `None`-or-value
results are `Option`.  External effects (subprocess calls, HTTP requests)
are passed in as explicit oracle functions.
-/

/-- ASCII whitespace, as recognised by Python's `str.strip()` and the
`\s` regex class on the inputs considered here (the Unicode-only
whitespace code points are not modelled). -/
def isSpace (c : Char) : Bool :=
  c = ' ' || c = '\t' || c = '\n' || c = '\r' || c = (Char.ofNat 11) || c = (Char.ofNat 12)

/-- Lexicographic comparison of strings by code point: the order used by
Python's `sorted` on `str`. -/
def strLe : List Char → List Char → Bool
  | [], _ => true
  | _ :: _, [] => false
  | a :: as, b :: bs =>
    if a.toNat < b.toNat then true
    else if b.toNat < a.toNat then false
    else strLe as bs

/-- Insert into a sorted list (auxiliary for `pySorted`). -/
def insertSorted (a : List Char) : List (List Char) → List (List Char)
  | [] => [a]
  | b :: bs => if strLe a b then a :: b :: bs else b :: insertSorted a bs

/-- Python's `sorted` on a collection of strings: the sorted permutation
under `strLe`.  Realised as insertion sort; since `strLe` is total,
transitive and antisymmetric, the sorted permutation is unique, so this
agrees with whatever algorithm CPython uses. -/
def pySorted : List (List Char) → List (List Char)
  | [] => []
  | a :: as => insertSorted a (pySorted as)

/-- `'\n'.join(lines)` -/
def joinNl : List (List Char) → List Char
  | [] => []
  | [l] => l
  | l :: ls => l ++ '\n' :: joinNl ls

/-- Split file content on newline characters (the line structure seen by
Python when iterating a text file, with the terminators removed by the
subsequent `strip`). -/
def splitNl : List Char → List (List Char)
  | [] => [[]]
  | c :: cs =>
    if c = '\n' then [] :: splitNl cs
    else
      match splitNl cs with
      | r :: rs => (c :: r) :: rs
      | [] => [[c]]

/-- Python `str.strip()` (whitespace from both ends). -/
def stripWs (l : List Char) : List Char :=
  ((l.dropWhile isSpace).reverse.dropWhile isSpace).reverse

namespace GD

/-- `load_seen_ids` of gmail-digest.py, applied to the state-file content:
`{line.strip() for line in f if line.strip()}` (the file is modelled as
already read; a missing file is content `none`). -/
def load_seen_ids (content : Option (List Char)) : List (List Char) :=
  match content with
  | none => []
  | some c => ((splitNl c).map stripWs).filter (fun l => l ≠ [])

/-- The identifier list kept by `save_seen_ids` of gmail-digest.py:
`recent = sorted(ids)[-500:]`. -/
def save_seen_ids (ids : List (List Char)) : List (List Char) :=
  let s := pySorted ids
  s.drop (s.length - 500)

/-- The state-file content written by `save_seen_ids`:
`f.write('\n'.join(recent) + '\n')`. -/
def save_seen_ids_file (ids : List (List Char)) : List Char :=
  joinNl (save_seen_ids ids) ++ ['\n']

/-- The selection the spec describes for `save(ids)`: the most recent 500
identifiers by insertion (discovery) order, i.e. the last 500 elements of
the store in insertion order.  Stated from the spec's words, for
comparison with `save_seen_ids` above. -/
def spec_recent_by_insertion (ids : List (List Char)) : List (List Char) :=
  ids.drop (ids.length - 500)

end GD

/-- Concrete 600-identifier store for the state-cap scenario: 599
identifiers discovered first (single characters with high code points,
pairwise distinct), then one identifier discovered last whose code point
is the lowest of all.  The most recently discovered identifier sorts
first, so it is not among the 500 lexicographically greatest. -/
def c3ids : List (List Char) :=
  ((List.range 599).map (fun i => [Char.ofNat (1000 + i)]))
    ++ [[Char.ofNat 100]]

/-- `pat` occurs at the front of `l`. -/
def startsWithL : List Char → List Char → Bool
  | [], _ => true
  | _ :: _, [] => false
  | p :: ps, c :: cs => c = p && startsWithL ps cs

/-- Python's `pat in s` substring test. -/
def containsSub (pat : List Char) : List Char → Bool
  | [] => startsWithL pat []
  | l@(_ :: cs) => startsWithL pat l || containsSub pat cs

/-- Match a literal at the front, returning the remainder on success. -/
def litMatch : List Char → List Char → Option (List Char)
  | [], l => some l
  | _ :: _, [] => none
  | p :: ps, c :: cs => if c = p then litMatch ps cs else none

/-- The regex character class `[^\s<>"')\]]` of the URL pattern used by
`extract_article_urls` (both scripts): everything except whitespace and
the six listed delimiters.  `Char.ofNat 39` is the single-quote
character. -/
def urlChar (c : Char) : Bool :=
  !(isSpace c || c = '<' || c = '>' || c = '"' || c = Char.ofNat 39 || c = ')' || c = ']')

/-- One attempt of the regex `https?://[^\s<>"')\]]+` at the current
position: the alternative with `s` is tried first (as the greedy `s?`
does), the character class is matched greedily and must be non-empty.
Returns the matched text and the remainder. -/
def matchUrl (l : List Char) : Option (List Char × List Char) :=
  match litMatch ("https://".toList) l with
  | some rest =>
    let seg := rest.takeWhile urlChar
    if seg = [] then none else some (("https://".toList) ++ seg, rest.dropWhile urlChar)
  | none =>
    match litMatch ("http://".toList) l with
    | some rest =>
      let seg := rest.takeWhile urlChar
      if seg = [] then none else some (("http://".toList) ++ seg, rest.dropWhile urlChar)
    | none => none

/-- `re.findall` for the URL pattern: scan left to right, taking
non-overlapping matches greedily.  `fuel` only bounds the recursion; each
step consumes at least one character, so `l.length` fuel is enough. -/
def findall_urls_go : Nat → List Char → List (List Char)
  | 0, _ => []
  | fuel + 1, l =>
    match matchUrl l with
    | some (m, rest) => m :: findall_urls_go fuel rest
    | none =>
      match l with
      | [] => []
      | _ :: cs => findall_urls_go fuel cs

def findall_urls (l : List Char) : List (List Char) := findall_urls_go l.length l

/-- `url.rstrip('.,;:!?)>]')` -/
def rstrip_tail (u : List Char) : List Char :=
  (u.reverse.dropWhile (fun c =>
    c = '.' || c = ',' || c = ';' || c = ':' || c = '!' || c = '?' ||
    c = ')' || c = '>' || c = ']')).reverse

/-- `urlparse(url).netloc` for URLs beginning with an `http`/`https`
scheme (the only shape produced by the URL regex); other inputs have an
empty network location. -/
def url_netloc (u : List Char) : List Char :=
  match litMatch ("https://".toList) u with
  | some rest => rest.takeWhile (fun c => !(c = '/' || c = '?' || c = '#'))
  | none =>
    match litMatch ("http://".toList) u with
    | some rest => rest.takeWhile (fun c => !(c = '/' || c = '?' || c = '#'))
    | none => []

/-- `urlparse(url).path` for the same shapes of input. -/
def url_path (u : List Char) : List Char :=
  match litMatch ("https://".toList) u with
  | some rest =>
    ((rest.dropWhile (fun c => !(c = '/' || c = '?' || c = '#'))).takeWhile
      (fun c => !(c = '?' || c = '#')))
  | none =>
    match litMatch ("http://".toList) u with
    | some rest =>
      ((rest.dropWhile (fun c => !(c = '/' || c = '?' || c = '#'))).takeWhile
        (fun c => !(c = '?' || c = '#')))
    | none => u.takeWhile (fun c => !(c = '?' || c = '#'))

def lowerStr (u : List Char) : List Char := u.map Char.toLower

/-- `SKIP_URL_PATTERNS` (identical in both scripts). -/
def SKIP_URL_PATTERNS : List (List Char) :=
  ["unsubscribe".toList, "optout".toList, "opt-out".toList, "preference".toList,
   "click.".toList, "tracking.".toList, "trk.".toList, "opens.".toList,
   "beacon".toList, "pixel".toList, "1x1".toList]

/-- `SKIP_DOMAINS` (identical in both scripts). -/
def SKIP_DOMAINS : List (List Char) :=
  ["list-manage.com".toList, "mailchimp.com".toList, "sendgrid.net".toList,
   "manage.kmail-lists.com".toList, "google.com/maps".toList,
   "play.google.com".toList, "itunes.apple.com".toList,
   "facebook.com".toList, "twitter.com".toList, "instagram.com".toList,
   "linkedin.com".toList, "youtube.com".toList,
   "doubleclick.net".toList, "googlesyndication.com".toList]

/-- `is_tracking_url` (identical in both scripts): a substring-denylist
test on the lowercased URL, plus a substring test of known domains
against the lowercased network location. -/
def is_tracking_url (url : List Char) : Bool :=
  let url_lower := lowerStr url
  SKIP_URL_PATTERNS.any (fun pat => containsSub pat url_lower) ||
  SKIP_DOMAINS.any (fun sd => containsSub sd (url_netloc url_lower))

def MEDIA_EXTS : List (List Char) :=
  [".png".toList, ".jpg".toList, ".jpeg".toList, ".gif".toList, ".svg".toList,
   ".ico".toList, ".css".toList, ".js".toList, ".woff".toList]

def endsWithL (ext l : List Char) : Bool := startsWithL ext.reverse l.reverse

/-- The media/asset-extension rejection: `urlparse(url).path.lower()`
ends with one of the known non-article extensions. -/
def has_media_ext (url : List Char) : Bool :=
  MEDIA_EXTS.any (fun e => endsWithL e (lowerStr (url_path url)))

/-- The dedup key: `parsed.netloc + parsed.path` of the (unlowered) URL. -/
def urlKey (u : List Char) : List Char := url_netloc u ++ url_path u

/-- The accumulating loop of `extract_article_urls`: strip trailing
punctuation, reject short/tracking/media URLs, then deduplicate by
`urlKey` against the `seen` key set (modelled as a list). -/
def extract_article_urls_go : List (List Char) → List (List Char) → List (List Char)
  | [], _ => []
  | url :: rest, seen =>
    let u := rstrip_tail url
    if u.length < 20 then extract_article_urls_go rest seen
    else if is_tracking_url u then extract_article_urls_go rest seen
    else if has_media_ext u then extract_article_urls_go rest seen
    else if urlKey u ∈ seen then extract_article_urls_go rest seen
    else u :: extract_article_urls_go rest (urlKey u :: seen)

/-- `extract_article_urls` of both scripts; `max_urls` is 3 in
gmail-digest.py (`MAX_URLS`) and 2 in gmail-digest-all.py
(`good[:2]`). -/
def extract_article_urls (max_urls : Nat) (body_text : List Char) : List (List Char) :=
  (extract_article_urls_go (findall_urls body_text) []).take max_urls

/-- The acceptance test of a single (already-stripped) candidate URL,
factored out of the loop above for specification purposes. -/
def url_accepted (u : List Char) : Bool :=
  !(u.length < 20) && !(is_tracking_url u) && !(has_media_ext u)

/-- The stream of accepted candidates, in first-appearance order. -/
def accepted_urls (body_text : List Char) : List (List Char) :=
  ((findall_urls body_text).map rstrip_tail).filter url_accepted

/-- Keep the first URL of each `urlKey`, preserving order: the intended
meaning of "deduplicate by (network-location, path), first-seen wins". -/
def firstPerKey : List (List Char) → List (List Char)
  | [] => []
  | u :: rest => u :: firstPerKey (rest.filter (fun v => urlKey v ≠ urlKey u))
termination_by l => l.length
decreasing_by
  simp only [List.length_cons]
  exact Nat.lt_succ_of_le (List.length_filter_le _ _)

namespace GDA

/-- `text[:4000].rfind('\n')` of the chunking loop, as an `Option`
(Python returns `-1` when absent): index of the last newline within the
first 4000 characters. -/
def rfindNl : List Char → Option Nat
  | [] => none
  | a :: as =>
    match rfindNl as with
    | some i => some (i + 1)
    | none => if a = '\n' then some 0 else none

/-- The cut position chosen by one iteration of the chunking loop of
`send_tg` (gmail-digest-all.py) on text longer than 4000:
`cut = text[:4000].rfind('\n'); if cut < 2000: cut = 4000`
(a missing newline, `-1`, is below 2000 and also falls back to 4000). -/
def cutPoint (text : List Char) : Nat :=
  match rfindNl (text.take 4000) with
  | none => 4000
  | some i => if i < 2000 then 4000 else i

/-- The chunking loop of `send_tg` (gmail-digest-all.py):
`while text: if len(text) <= 4000: parts.append(text); break;
cut = ...; parts.append(text[:cut]); text = text[cut:].lstrip('\n')`.
`fuel` only bounds the recursion; each iteration removes at least 2000
characters, so `text.length` fuel is enough. -/
def split_tg_go : Nat → List Char → List (List Char)
  | 0, _ => []
  | fuel + 1, text =>
    if text = [] then []
    else if text.length ≤ 4000 then [text]
    else
      text.take (cutPoint text) ::
        split_tg_go fuel ((text.drop (cutPoint text)).dropWhile (fun c => c = '\n'))

def split_tg (text : List Char) : List (List Char) := split_tg_go text.length text

/-- `send_tg` of gmail-digest-all.py.  `post i` is the HTTP status of the
`i`-th `requests.post` performed by the call.  Result: the returned
boolean and the list of texts posted, in order.  For payloads over 4000
characters the code posts every chunk, ignores every response, and
returns `True`; otherwise it posts once and returns `status == 200`. -/
def send_tg (text : List Char) (post : Nat → Nat) : Bool × List (List Char) :=
  if text.length > 4000 then (true, split_tg text)
  else (post 0 == 200, [text])

/-- The mark-as-read tail of the gmail-digest-all.py main block:
`ok = send_tg(full_text); if ok: for em in all_emails: mark_as_read(...)`
— every thread is marked read when `ok`, none otherwise. -/
def digest_all_mark (ok : Bool) (all_ids : List String) : List String :=
  if ok then all_ids else []

end GDA

/-- A MIME part of a Gmail message payload: `{mimeType, body: {data},
parts: [...]}`.  `data` is the base64url text (empty models an absent or
empty field — the code's `if body_data:` guard); `parts = none` models an
absent `parts` key. -/
inductive MimePart where
  | mk (mimeType : String) (data : String) (parts : Option (List MimePart))

def MimePart.mimeType : MimePart → String
  | .mk m _ _ => m

def MimePart.data : MimePart → String
  | .mk _ d _ => d

def MimePart.parts : MimePart → Option (List MimePart)
  | .mk _ _ p => p

/-- The top-level payload of a Gmail message: headers plus the same
mimeType/body/parts shape. -/
structure Payload where
  headers : List (String × String)
  mimeType : String
  data : String
  parts : Option (List MimePart)

structure GmailMessage where
  payload : Payload
  snippet : String

structure Thread where
  messages : List GmailMessage

/-- The result dictionary of `get_email_body`:
`{from, subject, date, body, snippet}` (`from` is a Lean keyword, hence
`sender`). -/
structure EmailData where
  sender : String
  subject : String
  date : String
  body : String
  snippet : String
deriving DecidableEq

/-- The header dictionary lookup: the loop stores
`headers[h['name'].lower()] = h['value']` (later occurrences win, dict
semantics), and the caller reads `headers.get(key, '')`. -/
def header_value (hs : List (String × String)) (key : String) : String :=
  match hs.reverse.find? (fun h => h.1.toLower = key) with
  | some h => h.2
  | none => ""

/-- The body of the `if body_data:` block of `extract_parts`: update
`(body_text, body_html)` from one part's own mime type and data
(`if mime == 'text/plain' and not body_text: body_text = decoded;
elif mime == 'text/html' and not body_html: body_html = decoded`).
`decode` is `base64.urlsafe_b64decode ∘ decode utf-8`, passed in
explicitly. -/
def part_data_update (decode : String → String) (mime data bt bh : String) :
    String × String :=
  if data ≠ "" then
    let decoded := decode data
    if mime = "text/plain" ∧ bt = "" then (decoded, bh)
    else if mime = "text/html" ∧ bh = "" then (bt, decoded)
    else (bt, bh)
  else (bt, bh)

mutual
/-- One step of `extract_parts` on a single part: update
`(body_text, body_html)` from the part's own data, then recurse into its
children (`if 'parts' in part`). -/
def extract_part (decode : String → String) (p : MimePart) (bt bh : String) : String × String :=
  match p with
  | .mk mime data children =>
    let acc := part_data_update decode mime data bt bh
    match children with
    | some l => extract_parts decode l acc.1 acc.2
    | none => acc

/-- `extract_parts` over a sibling list (`for part in parts: ...`). -/
def extract_parts (decode : String → String) (l : List MimePart) (bt bh : String) :
    String × String :=
  match l with
  | [] => (bt, bh)
  | p :: ps =>
    let acc := extract_part decode p bt bh
    extract_parts decode ps acc.1 acc.2
end

mutual
/-- The first `text/plain` part with data in pre-order, stated directly
(specification-side companion of `extract_part`). -/
def first_plain_part (p : MimePart) : Option String :=
  match p with
  | .mk mime data children =>
    if mime = "text/plain" ∧ data ≠ "" then some data
    else
      match children with
      | some l => first_plain_list l
      | none => none

def first_plain_list : List MimePart → Option String
  | [] => none
  | p :: ps =>
    match first_plain_part p with
    | some d => some d
    | none => first_plain_list ps
end

mutual
/-- The first `text/html` part with data in pre-order. -/
def first_html_part (p : MimePart) : Option String :=
  match p with
  | .mk mime data children =>
    if mime = "text/html" ∧ data ≠ "" then some data
    else
      match children with
      | some l => first_html_list l
      | none => none

def first_html_list : List MimePart → Option String
  | [] => none
  | p :: ps =>
    match first_html_part p with
    | some d => some d
    | none => first_html_list ps
end

/-- `get_email_body` (same structure in gmail-digest.py and
gmail-digest-all.py; the body cap `MAX_BODY` is 5000 in the former and
4000 in the latter, hence the `cap` parameter).  `data = none` models a
failed `json.loads`; a missing/empty `thread.messages` returns `{}`
(here `none`).  `h2t` is the `html2text` conversion, passed in
explicitly. -/
def get_email_body (decode h2t : String → String) (cap : Nat)
    (data : Option Thread) : Option EmailData :=
  match data with
  | none => none
  | some thread =>
    match thread.messages with
    | [] => none
    | msg :: _ =>
      let payload := msg.payload
      let snippet := msg.snippet
      let bt_bh : String × String :=
        match payload.parts with
        | some l => extract_parts decode l "" ""
        | none =>
          if payload.data ≠ "" then
            let decoded := decode payload.data
            if payload.mimeType = "text/plain" then (decoded, "")
            else if payload.mimeType = "text/html" then ("", decoded)
            else ("", "")
          else ("", "")
      let body_text :=
        if bt_bh.1 = "" ∧ bt_bh.2 ≠ "" then h2t bt_bh.2 else bt_bh.1
      some {
        sender := header_value payload.headers "from",
        subject := header_value payload.headers "subject",
        date := header_value payload.headers "date",
        body := body_text.take cap,
        snippet := snippet }

namespace GD

/-- Python truthiness of an optional string (`if result:`): `None` and
`''` are falsy. -/
def truthyStr : Option String → Bool
  | none => false
  | some s => !(s = "")

/-- `call_gemini`: returns `None` without calling out when
`GOOGLE_API_KEY` is empty; otherwise the outcome of the network call,
`net prompt` (`none` models an error/empty response swallowed by the
`try`/`except`). -/
def call_gemini (gemini_key : String) (net : String → Option String)
    (prompt : String) : Option String :=
  if gemini_key = "" then none else net prompt

/-- `call_deepseek`, same shape. -/
def call_deepseek (deepseek_key : String) (net : String → Option String)
    (prompt : String) : Option String :=
  if deepseek_key = "" then none else net prompt

/-- Result of `call_ai` with the call sequence made explicit:
`deepseek_called` records whether the fallback provider was invoked. -/
structure AiResult where
  result : Option String
  deepseek_called : Bool
deriving DecidableEq

/-- `call_ai` of gmail-digest.py: try Gemini, return its result if
truthy; otherwise call DeepSeek, return its result if truthy; otherwise
`None`. -/
def call_ai (gemini_key deepseek_key : String)
    (gnet dnet : String → Option String) (prompt : String) : AiResult :=
  let g := call_gemini gemini_key gnet prompt
  if truthyStr g then { result := g, deepseek_called := false }
  else
    let d := call_deepseek deepseek_key dnet prompt
    if truthyStr d then { result := d, deepseek_called := true }
    else { result := none, deepseek_called := true }

/-- `build_summary_prompt`: the fixed instruction template followed by
the message metadata, capped body, and the enumerated article
excerpts. -/
def build_summary_prompt (e : EmailData) (articles : List (String × String)) : String :=
  let base :=
    "请用中文总结以下邮件，要求：\n1. 一句话概括邮件主旨\n2. 列出关键信息要点 (3-5条)\n3. 如果有文章链接内容，提取核心观点\n4. 如果需要采取行动，明确标注\n\n📧 邮件信息\n发件人: "
      ++ e.sender ++ "\n主题: " ++ e.subject ++ "\n日期: " ++ e.date
      ++ "\n\n📝 邮件正文:\n" ++ e.body.take 3000
  let rec addArticles (i : Nat) : List (String × String) → String
    | [] => ""
    | a :: rest =>
      "\n\n[文章" ++ toString i ++ "] " ++ a.1.take 80 ++ "\n" ++ a.2.take 1500
        ++ addArticles (i + 1) rest
  if articles = [] then base
  else base ++ "\n\n📎 链接文章内容:" ++ addArticles 1 articles

/-- `send_tg` of gmail-digest.py.  Returns `False` at once when
`BOT_TOKEN` is unset.  Text over 4000 characters is truncated to
`text[:3997] + '...'` (no chunking in this variant).  `post i` is the
HTTP status of the `i`-th `requests.post` (a raised exception behaves as
a non-200); the second post is the plain-text retry after a non-200
first attempt.  Result: returned boolean and the list of texts posted. -/
def send_tg (bot_token : String) (text : List Char) (post : Nat → Nat) :
    Bool × List (List Char) :=
  if bot_token = "" then (false, [])
  else
    let t := if text.length > 4000 then text.take 3997 ++ ['.', '.', '.'] else text
    if post 0 == 200 then (true, [t])
    else (post 1 == 200, [t, t])

/-- `seen_ids.add(msg_id)` on the in-memory set, modelled as an
insertion-ordered duplicate-free list. -/
def addSeen (s : List String) (x : String) : List String :=
  if x ∈ s then s else s ++ [x]

/-- Everything observable about one `process_email` call. -/
structure ProcessResult where
  processed : Bool
  seen_ids : List String
  sent_text : Option String
  send_ok : Bool
  marked_read : Bool
  deepseek_called : Bool
deriving DecidableEq

/-- `process_email` of gmail-digest.py, with the external collaborators
passed as oracles: `get_body` is `get_email_body` (`none` = `{}`),
`fetch` is `fetch_article` (`none` = falsy result), `gnet`/`dnet` are the
provider network outcomes, `post` the Telegram statuses.  Records the
final seen set, the text handed to `send_tg` (if any), the send outcome,
and whether `mark_as_read` ran. -/
def process_email (bot_token gemini_key deepseek_key : String)
    (get_body : String → Option EmailData)
    (fetch : String → Option String)
    (gnet dnet : String → Option String)
    (post : Nat → Nat)
    (email_meta_id : String) (seen_ids : List String) : ProcessResult :=
  let msg_id := email_meta_id
  if msg_id ∈ seen_ids then
    { processed := false, seen_ids := seen_ids, sent_text := none,
      send_ok := false, marked_read := false, deepseek_called := false }
  else
    match get_body msg_id with
    | none =>
      { processed := false, seen_ids := addSeen seen_ids msg_id, sent_text := none,
        send_ok := false, marked_read := false, deepseek_called := false }
    | some email_data =>
      let urls := extract_article_urls 3 email_data.body.toList
      let articles := urls.filterMap
        (fun u => (fetch (String.mk u)).map (fun c => (String.mk u, c)))
      let prompt := build_summary_prompt email_data articles
      let ai := call_ai gemini_key deepseek_key gnet dnet prompt
      let tg_text :=
        match ai.result with
        | some summary =>
          "📧 <b>" ++ email_data.subject ++ "</b>\n👤 " ++ email_data.sender
            ++ "\n\n" ++ summary
        | none =>
          "📧 新邮件\n发件人: " ++ email_data.sender ++ "\n主题: "
            ++ email_data.subject ++ "\n\n" ++ email_data.snippet.take 500
      let ok := (send_tg bot_token tg_text.toList post).1
      { processed := true, seen_ids := addSeen seen_ids msg_id,
        sent_text := some tg_text, send_ok := ok,
        marked_read := ok, deepseek_called := ai.deepseek_called }

end GD

/-- Chunk reassembly: `Reassembles ps t` holds when `t` is the chunks
`ps` in order, with a (possibly empty) run of newline characters between
consecutive chunks — i.e. concatenating the chunks reproduces `t` with
only boundary newline whitespace removed. -/
inductive Reassembles : List (List Char) → List Char → Prop where
  | nil : Reassembles [] []
  | cons (p sep : List Char) {ps : List (List Char)} {t : List Char}
      (hsep : ∀ c ∈ sep, c = '\n')
      (h : Reassembles ps t) : Reassembles (p :: ps) (p ++ (sep ++ t))

-- ═══════════════════════════ THEOREMS ═══════════════════════════

theorem toNat_ofNat_valid (n : Nat) (h : n < 55296) : (Char.ofNat n).toNat = n := by
  have hv : n.isValidChar := Or.inl h
  rw [Char.ofNat, dif_pos hv]
  simp [Char.ofNatAux, Char.toNat, UInt32.toNat, BitVec.toNat_ofNatLt]

theorem strLe_total (a b : List Char) : strLe a b = true ∨ strLe b a = true := by
  induction a generalizing b with
  | nil => exact Or.inl rfl
  | cons x xs ih =>
    cases b with
    | nil => exact Or.inr rfl
    | cons y ys =>
      simp only [strLe]
      rcases Nat.lt_trichotomy x.toNat y.toNat with h | h | h
      · left; simp [h]
      · have hyx : ¬ y.toNat < x.toNat := by omega
        have hxy : ¬ x.toNat < y.toNat := by omega
        simp only [hxy, hyx, if_false]
        exact ih ys
      · right; simp [h]

theorem strLe_trans {a b c : List Char} (h1 : strLe a b = true) (h2 : strLe b c = true) :
    strLe a c = true := by
  induction a generalizing b c with
  | nil => rfl
  | cons x xs ih =>
    cases b with
    | nil => simp [strLe] at h1
    | cons y ys =>
      cases c with
      | nil => simp [strLe] at h2
      | cons z zs =>
        simp only [strLe] at h1 h2 ⊢
        by_cases hxy : x.toNat < y.toNat
        · by_cases hyz : y.toNat < z.toNat
          · simp [show x.toNat < z.toNat by omega]
          · simp only [hyz, if_false] at h2
            by_cases hzy : z.toNat < y.toNat
            · simp [hzy] at h2
            · simp [show x.toNat < z.toNat by omega]
        · simp only [hxy, if_false] at h1
          by_cases hyx : y.toNat < x.toNat
          · simp [hyx] at h1
          · simp only [hyx, if_false] at h1
            by_cases hyz : y.toNat < z.toNat
            · simp [show x.toNat < z.toNat by omega]
            · simp only [hyz, if_false] at h2
              by_cases hzy : z.toNat < y.toNat
              · simp [hzy] at h2
              · simp only [hzy, if_false] at h2
                have h1' : ¬ x.toNat < z.toNat := by omega
                have h2' : ¬ z.toNat < x.toNat := by omega
                simp only [h1', h2', if_false]
                exact ih h1 h2

theorem insertSorted_perm (a : List Char) (l : List (List Char)) :
    List.Perm (insertSorted a l) (a :: l) := by
  induction l with
  | nil => exact List.Perm.refl _
  | cons b bs ih =>
    simp only [insertSorted]
    by_cases h : strLe a b = true
    · rw [if_pos h]
    · rw [if_neg h]
      exact (List.Perm.cons b ih).trans (List.Perm.swap a b bs)

theorem pySorted_perm (l : List (List Char)) : List.Perm (pySorted l) l := by
  induction l with
  | nil => exact List.Perm.refl _
  | cons a as ih =>
    simp only [pySorted]
    exact (insertSorted_perm a (pySorted as)).trans (List.Perm.cons a ih)

theorem mem_pySorted {x : List Char} {l : List (List Char)} :
    x ∈ pySorted l ↔ x ∈ l :=
  (pySorted_perm l).mem_iff

theorem pySorted_length (l : List (List Char)) : (pySorted l).length = l.length :=
  (pySorted_perm l).length_eq

theorem insertSorted_pairwise {a : List Char} {l : List (List Char)}
    (h : l.Pairwise (fun x y => strLe x y = true)) :
    (insertSorted a l).Pairwise (fun x y => strLe x y = true) := by
  induction l with
  | nil => simp [insertSorted]
  | cons b bs ih =>
    rcases List.pairwise_cons.mp h with ⟨hb, hbs⟩
    simp only [insertSorted]
    by_cases hab : strLe a b = true
    · rw [if_pos hab]
      refine List.pairwise_cons.mpr ⟨?_, h⟩
      intro y hy
      rcases List.mem_cons.mp hy with rfl | hy
      · exact hab
      · exact strLe_trans hab (hb y hy)
    · have hba : strLe b a = true := (strLe_total a b).resolve_left hab
      rw [if_neg hab]
      refine List.pairwise_cons.mpr ⟨?_, ih hbs⟩
      intro y hy
      have := (insertSorted_perm a bs).mem_iff.mp hy
      rcases List.mem_cons.mp this with rfl | hy'
      · exact hba
      · exact hb y hy'

theorem pySorted_pairwise (l : List (List Char)) :
    (pySorted l).Pairwise (fun x y => strLe x y = true) := by
  induction l with
  | nil => simp [pySorted]
  | cons a as ih => exact insertSorted_pairwise ih

theorem splitNl_append_nl {l rest : List Char} (h : '\n' ∉ l) :
    splitNl (l ++ '\n' :: rest) = l :: splitNl rest := by
  induction l with
  | nil => simp [splitNl]
  | cons c cs ih =>
    have hc : c ≠ '\n' := fun hc => h (hc ▸ List.mem_cons_self c cs)
    have hcs : '\n' ∉ cs := fun hm => h (List.mem_cons_of_mem c hm)
    simp only [List.cons_append, splitNl, if_neg hc, List.append_eq, ih hcs]

theorem splitNl_joinNl {l : List Char} {ls : List (List Char)}
    (h : ∀ m ∈ l :: ls, '\n' ∉ m) :
    splitNl (joinNl (l :: ls) ++ ['\n']) = (l :: ls) ++ [[]] := by
  induction ls generalizing l with
  | nil =>
    have := @splitNl_append_nl l [] (h l (List.mem_cons_self l []))
    simpa [joinNl, splitNl] using this
  | cons l2 ls2 ih =>
    have hl : '\n' ∉ l := h l (List.mem_cons_self l _)
    have h2 : ∀ m ∈ l2 :: ls2, '\n' ∉ m := fun m hm => h m (List.mem_cons_of_mem l hm)
    simp only [joinNl, List.cons_append, List.append_assoc, List.cons_append]
    rw [splitNl_append_nl hl, ih h2]
    simp

theorem dropWhile_eq_self_of_all {p : Char → Bool} {l : List Char}
    (h : ∀ c ∈ l, p c = false) : l.dropWhile p = l := by
  cases l with
  | nil => rfl
  | cons c cs => simp [List.dropWhile, h c (List.mem_cons_self c cs)]

theorem stripWs_eq_self {l : List Char} (h : ∀ c ∈ l, isSpace c = false) :
    stripWs l = l := by
  unfold stripWs
  rw [dropWhile_eq_self_of_all h,
      dropWhile_eq_self_of_all (fun c hc => h c (List.mem_reverse.mp hc)),
      List.reverse_reverse]

theorem map_stripWs_eq_self {ls : List (List Char)}
    (h : ∀ m ∈ ls, ∀ c ∈ m, isSpace c = false) : ls.map stripWs = ls := by
  induction ls with
  | nil => rfl
  | cons m ms ih =>
    simp only [List.map_cons,
      stripWs_eq_self (h m (List.mem_cons_self m ms)),
      ih (fun m' hm' => h m' (List.mem_cons_of_mem m hm'))]

theorem c3ids_nodup : c3ids.Nodup := by
  have hmap : ((List.range 599).map (fun i => [Char.ofNat (1000 + i)])).Nodup := by
    refine List.Nodup.map_on ?_ (List.nodup_range 599)
    intro i hi j hj hf
    have hi' : 1000 + i < 55296 := by
      have := List.mem_range.mp hi; omega
    have hj' : 1000 + j < 55296 := by
      have := List.mem_range.mp hj; omega
    have : Char.ofNat (1000 + i) = Char.ofNat (1000 + j) := by
      exact List.head_eq_of_cons_eq hf
    have := congrArg Char.toNat this
    rw [toNat_ofNat_valid _ hi', toNat_ofNat_valid _ hj'] at this
    omega
  refine List.Nodup.append hmap (List.nodup_singleton _) ?_
  intro x hx hx'
  simp only [List.mem_map, List.mem_range] at hx
  rcases hx with ⟨i, hi, rfl⟩
  simp only [List.mem_singleton] at hx'
  have : Char.ofNat (1000 + i) = Char.ofNat 100 := List.head_eq_of_cons_eq hx'
  have := congrArg Char.toNat this
  rw [toNat_ofNat_valid _ (by omega), toNat_ofNat_valid _ (by decide)] at this
  omega

set_option maxRecDepth 200000 in
set_option maxHeartbeats 2000000 in
/-- **C3, counterexample.**  A store of 600 pairwise-distinct identifiers
(599 discovered first, one low-sorting identifier discovered last) for
which `save_seen_ids` does **not** persist the 500 most recently inserted
identifiers: the most recently discovered identifier is among the claim's
"most recent 500 by insertion" but is absent from what the code persists,
because the code keeps `sorted(ids)[-500:]`, the 500 lexicographically
greatest. -/
theorem C3_counterexample :
    c3ids.length = 600 ∧ c3ids.Nodup ∧
    [Char.ofNat 100] ∈ GD.spec_recent_by_insertion c3ids ∧
    [Char.ofNat 100] ∉ GD.save_seen_ids c3ids := by
  refine ⟨by decide, c3ids_nodup, ?_, ?_⟩ <;> decide

/-- **C3, amended.**  `save_seen_ids` persists at most 500 identifiers:
exactly the `min 500 n` lexicographically greatest ones, in sorted order
(not the most recent by insertion).  The remaining (dropped) identifiers
all compare less-or-equal to every persisted one. -/
theorem C3_save_keeps_lex_top_500 (ids : List (List Char)) :
    (GD.save_seen_ids ids).Pairwise (fun x y => strLe x y = true) ∧
    (GD.save_seen_ids ids).length = min 500 ids.length ∧
    ∃ dropped, List.Perm (dropped ++ GD.save_seen_ids ids) ids ∧
      ∀ x ∈ dropped, ∀ y ∈ GD.save_seen_ids ids, strLe x y = true := by
  unfold GD.save_seen_ids
  set s := pySorted ids with hs
  have hsp : s.Pairwise (fun x y => strLe x y = true) := pySorted_pairwise ids
  have hslen : s.length = ids.length := pySorted_length ids
  refine ⟨List.Pairwise.sublist (List.drop_sublist _ _) hsp, ?_, ?_⟩
  · rw [List.length_drop, hslen]
    omega
  · refine ⟨s.take (s.length - 500), ?_, ?_⟩
    · rw [List.take_append_drop]
      exact pySorted_perm ids
    · intro x hx y hy
      have := (List.take_append_drop (s.length - 500) s) ▸ hsp
      exact ((List.pairwise_append.mp this).2.2) x hx y hy

/-- **C9.**  Saving a whitespace-free store of at most 500 identifiers and
loading the resulting state file returns exactly the saved set:
`load_seen_ids` after `save_seen_ids` is the identity on such sets
(membership is preserved both ways). -/
theorem C9_save_load_roundtrip (ids : List (List Char))
    (hlen : ids.length ≤ 500)
    (hne : ∀ m ∈ ids, m ≠ [])
    (hws : ∀ m ∈ ids, ∀ c ∈ m, isSpace c = false) :
    ∀ x, x ∈ GD.load_seen_ids (some (GD.save_seen_ids_file ids)) ↔ x ∈ ids := by
  intro x
  have hdrop : (pySorted ids).length - 500 = 0 := by
    rw [pySorted_length]; omega
  have hsave : GD.save_seen_ids ids = pySorted ids := by
    show List.drop ((pySorted ids).length - 500) (pySorted ids) = pySorted ids
    rw [hdrop, List.drop_zero]
  have hload : ∀ c, GD.load_seen_ids (some c) =
      ((splitNl c).map stripWs).filter (fun l => l ≠ []) := fun c => rfl
  have hfile : GD.save_seen_ids_file ids = joinNl (pySorted ids) ++ ['\n'] := by
    unfold GD.save_seen_ids_file
    rw [hsave]
  rw [hfile, hload]
  have hmem : ∀ m ∈ pySorted ids, m ∈ ids := fun m hm => mem_pySorted.mp hm
  cases hcase : pySorted ids with
  | nil =>
    have : ids = [] := List.eq_nil_of_length_eq_zero
      (by rw [← pySorted_length ids, hcase]; rfl)
    subst this
    simp [joinNl, splitNl, stripWs, List.dropWhile]
  | cons l ls =>
    have hnl : ∀ m ∈ l :: ls, '\n' ∉ m := by
      intro m hm hmem'
      have := hws m (hmem m (hcase ▸ hm)) '\n' hmem'
      simp [isSpace] at this
    rw [show joinNl (l :: ls) ++ ['\n'] = joinNl (l :: ls) ++ '\n' :: [] from rfl] at *
    rw [splitNl_joinNl hnl]
    have hstrip : ((l :: ls) ++ [[]]).map stripWs = (l :: ls) ++ [[]] := by
      refine map_stripWs_eq_self ?_
      intro m hm c hc
      rcases List.mem_append.mp hm with hm' | hm'
      · exact hws m (hmem m (hcase ▸ hm')) c hc
      · simp only [List.mem_singleton] at hm'; subst hm'; cases hc
    rw [hstrip, List.filter_append]
    have hfil : (l :: ls).filter (fun m => decide (m ≠ [])) = l :: ls := by
      refine List.filter_eq_self.mpr ?_
      intro m hm
      exact decide_eq_true (hne m (hmem m (hcase ▸ hm)))
    rw [hfil]
    simp only [List.filter, decide_not, List.mem_append]
    constructor
    · intro hx
      rcases hx with hx | hx
      · exact hmem x (hcase ▸ hx)
      · simp at hx
    · intro hx
      left
      have : x ∈ pySorted ids := mem_pySorted.mpr hx
      exact hcase ▸ this

/-- **C9, witness.**  The round trip at a concrete two-identifier store. -/
theorem C9_save_load_roundtrip_witness :
    ['a', 'b'] ∈ GD.load_seen_ids (some (GD.save_seen_ids_file [['a', 'b'], ['x']])) ↔
      ['a', 'b'] ∈ [['a', 'b'], ['x']] :=
  C9_save_load_roundtrip [['a', 'b'], ['x']] (by decide) (by decide) (by decide) ['a', 'b']

theorem rfindNl_lt_length {l : List Char} {i : Nat} (h : GDA.rfindNl l = some i) :
    i < l.length := by
  induction l generalizing i with
  | nil => simp [GDA.rfindNl] at h
  | cons a as ih =>
    simp only [GDA.rfindNl] at h
    cases h' : GDA.rfindNl as with
    | some j =>
      rw [h'] at h
      have := ih h'
      simp only [Option.some.injEq] at h
      simp [← h, List.length_cons]
      omega
    | none =>
      rw [h'] at h
      by_cases ha : a = '\n'
      · rw [if_pos ha] at h
        simp only [Option.some.injEq] at h
        simp [← h]
      · rw [if_neg ha] at h
        exact absurd h (by simp)

theorem cutPoint_ge_2000 (text : List Char) : 2000 ≤ GDA.cutPoint text := by
  unfold GDA.cutPoint
  cases h : GDA.rfindNl (text.take 4000) with
  | none => exact show (2000 : Nat) ≤ 4000 by omega
  | some i =>
    show 2000 ≤ if i < 2000 then 4000 else i
    by_cases hi : i < 2000
    · rw [if_pos hi]; omega
    · rw [if_neg hi]; omega

theorem cutPoint_le_4000 (text : List Char) : GDA.cutPoint text ≤ 4000 := by
  unfold GDA.cutPoint
  cases h : GDA.rfindNl (text.take 4000) with
  | none => exact show (4000 : Nat) ≤ 4000 from le_rfl
  | some i =>
    have hlt := rfindNl_lt_length h
    rw [List.length_take] at hlt
    show (if i < 2000 then 4000 else i) ≤ 4000
    by_cases hi : i < 2000
    · rw [if_pos hi]
    · rw [if_neg hi]; omega

theorem split_tg_go_congr (f1 : Nat) : ∀ (f2 : Nat) (text : List Char),
    text.length ≤ f1 → text.length ≤ f2 →
    GDA.split_tg_go f1 text = GDA.split_tg_go f2 text := by
  induction f1 with
  | zero =>
    intro f2 text h1 _
    have : text = [] := List.eq_nil_of_length_eq_zero (by omega)
    subst this
    cases f2 <;> simp [GDA.split_tg_go]
  | succ f1 ih =>
    intro f2 text h1 h2
    cases f2 with
    | zero =>
      have : text = [] := List.eq_nil_of_length_eq_zero (by omega)
      subst this
      simp [GDA.split_tg_go]
    | succ f2 =>
      simp only [GDA.split_tg_go]
      by_cases h0 : text = []
      · simp [h0]
      · rw [if_neg h0, if_neg h0]
        by_cases h4 : text.length ≤ 4000
        · rw [if_pos h4, if_pos h4]
        · rw [if_neg h4, if_neg h4]
          have hcut := cutPoint_ge_2000 text
          have hlen : ((text.drop (GDA.cutPoint text)).dropWhile (fun c => c = '\n')).length ≤
              (text.drop (GDA.cutPoint text)).length :=
            (List.dropWhile_sublist _).length_le
          rw [List.length_drop] at hlen
          rw [ih f2 _ (by omega) (by omega)]

theorem split_tg_eq (text : List Char) :
    GDA.split_tg text =
      if text = [] then []
      else if text.length ≤ 4000 then [text]
      else
        text.take (GDA.cutPoint text) ::
          GDA.split_tg ((text.drop (GDA.cutPoint text)).dropWhile (fun c => c = '\n')) := by
  by_cases h0 : text = []
  · subst h0; simp [GDA.split_tg, GDA.split_tg_go]
  · rw [if_neg h0]
    by_cases h4 : text.length ≤ 4000
    · rw [if_pos h4]
      unfold GDA.split_tg
      cases hL : text.length with
      | zero => exact absurd (List.eq_nil_of_length_eq_zero hL) h0
      | succ n =>
        simp only [GDA.split_tg_go]
        rw [if_neg h0, if_pos h4]
    · rw [if_neg h4]
      unfold GDA.split_tg
      cases hL : text.length with
      | zero => exact absurd (List.eq_nil_of_length_eq_zero hL) h0
      | succ n =>
        simp only [GDA.split_tg_go]
        rw [if_neg h0, if_neg h4]
        have hcut := cutPoint_ge_2000 text
        have hlen : ((text.drop (GDA.cutPoint text)).dropWhile (fun c => c = '\n')).length ≤
            (text.drop (GDA.cutPoint text)).length :=
          (List.dropWhile_sublist _).length_le
        rw [List.length_drop] at hlen
        rw [split_tg_go_congr n ((text.drop (GDA.cutPoint text)).dropWhile
          (fun c => c = '\n')).length _ (by omega) le_rfl]

theorem split_tg_chunk_le (text : List Char) :
    ∀ p ∈ GDA.split_tg text, p.length ≤ 4000 := by
  rw [split_tg_eq]
  by_cases h0 : text = []
  · simp [h0]
  · rw [if_neg h0]
    by_cases h4 : text.length ≤ 4000
    · rw [if_pos h4]
      intro p hp
      simp only [List.mem_singleton] at hp
      subst hp
      exact h4
    · rw [if_neg h4]
      intro p hp
      rcases List.mem_cons.mp hp with rfl | hp
      · have := cutPoint_le_4000 text
        rw [List.length_take]
        omega
      · exact split_tg_chunk_le _ p hp
termination_by text.length
decreasing_by
  have hcut := cutPoint_ge_2000 text
  have hlen : ((text.drop (GDA.cutPoint text)).dropWhile (fun c => c = '\n')).length ≤
      (text.drop (GDA.cutPoint text)).length :=
    (List.dropWhile_sublist _).length_le
  rw [List.length_drop] at hlen
  omega

theorem split_tg_reassembles (text : List Char) :
    Reassembles (GDA.split_tg text) text := by
  rw [split_tg_eq]
  by_cases h0 : text = []
  · rw [if_pos h0, h0]
    exact Reassembles.nil
  · rw [if_neg h0]
    by_cases h4 : text.length ≤ 4000
    · rw [if_pos h4]
      have := @Reassembles.cons text [] [] []
        (by intro c hc; cases hc) Reassembles.nil
      simpa using this
    · rw [if_neg h4]
      have hsplit : text =
          text.take (GDA.cutPoint text) ++
            (((text.drop (GDA.cutPoint text)).takeWhile (fun c => c = '\n')) ++
              ((text.drop (GDA.cutPoint text)).dropWhile (fun c => c = '\n'))) := by
        rw [List.takeWhile_append_dropWhile, List.take_append_drop]
      have hsep : ∀ c ∈ (text.drop (GDA.cutPoint text)).takeWhile (fun c => c = '\n'),
          c = '\n' := by
        intro c hc
        have := List.mem_takeWhile_imp hc
        exact of_decide_eq_true this
      have hrec := split_tg_reassembles ((text.drop (GDA.cutPoint text)).dropWhile
        (fun c => c = '\n'))
      have := Reassembles.cons (text.take (GDA.cutPoint text))
        ((text.drop (GDA.cutPoint text)).takeWhile (fun c => c = '\n')) hsep hrec
      rw [← hsplit] at this
      exact this
termination_by text.length
decreasing_by
  have hcut := cutPoint_ge_2000 text
  have hlen : ((text.drop (GDA.cutPoint text)).dropWhile (fun c => c = '\n')).length ≤
      (text.drop (GDA.cutPoint text)).length :=
    (List.dropWhile_sublist _).length_le
  rw [List.length_drop] at hlen
  omega

theorem reassembles_flatten {ps : List (List Char)} {t : List Char}
    (h : Reassembles ps t) (hnl : ∀ c ∈ t, c ≠ '\n') : ps.flatten = t := by
  induction h with
  | nil => rfl
  | cons p sep hsep hre ih =>
    rename_i ps' t'
    have hsep0 : sep = [] := by
      cases sep with
      | nil => rfl
      | cons c cs =>
        have hc : c = '\n' := hsep c (List.mem_cons_self c cs)
        have hmem : c ∈ p ++ ((c :: cs) ++ t') := by simp
        exact absurd hc (hnl c hmem)
    subst hsep0
    simp only [List.nil_append] at hnl ⊢
    rw [List.flatten_cons, ih (fun c hc => hnl c (List.mem_append_right p hc))]

/-- **C4, counterexample.**  The per-message variant's `send_tg`
(gmail-digest.py) does not split oversized payloads at all: a
9000-character payload is truncated to `text[:3997] + '...'` and sent as
one message, and no concatenation of the delivered messages reproduces
the original text up to boundary newline trimming. -/
theorem C4_counterexample :
    (GD.send_tg "token" (List.replicate 9000 'x') (fun _ => 200)).2 =
      [List.replicate 3997 'x' ++ ['.', '.', '.']] ∧
    ¬ Reassembles ((GD.send_tg "token" (List.replicate 9000 'x') (fun _ => 200)).2)
      (List.replicate 9000 'x') := by
  have hsent : (GD.send_tg "token" (List.replicate 9000 'x') (fun _ => 200)).2 =
      [List.replicate 3997 'x' ++ ['.', '.', '.']] := by
    unfold GD.send_tg
    rw [if_neg (by decide)]
    rw [if_pos (show (List.replicate 9000 'x').length > 4000 by
      rw [List.length_replicate]; omega)]
    rw [List.take_replicate, show (min 3997 9000 : Nat) = 3997 from by norm_num]
    rfl
  refine ⟨hsent, ?_⟩
  intro hre
  rw [hsent] at hre
  have hnl : ∀ c ∈ List.replicate 9000 'x', c ≠ '\n' := by
    intro c hc
    rw [List.eq_of_mem_replicate hc]
    decide
  have hflat := reassembles_flatten hre hnl
  have := congrArg List.length hflat
  rw [List.flatten_cons] at this
  simp only [List.flatten_nil, List.append_nil, List.length_append,
    List.length_replicate, List.length_cons, List.length_nil] at this
  omega

/-- **C4, amended.**  The batch variant's `send_tg`
(gmail-digest-all.py) is the function that chunks: a payload longer than
4000 characters is delivered as the `split_tg` chunks in order, every
chunk is at most 4000 characters long, and the chunks reassemble to the
original text with only runs of boundary newlines removed.  (The
per-message variant instead truncates, see the counterexample.) -/
theorem C4_batch_chunking (text : List Char) (post : Nat → Nat)
    (h : 4000 < text.length) :
    (GDA.send_tg text post).2 = GDA.split_tg text ∧
    (∀ p ∈ GDA.split_tg text, p.length ≤ 4000) ∧
    Reassembles (GDA.split_tg text) text := by
  refine ⟨?_, split_tg_chunk_le text, split_tg_reassembles text⟩
  unfold GDA.send_tg
  rw [if_pos h]

/-- **C4, witness.**  The amended statement at a concrete 4001-character
payload. -/
theorem C4_batch_chunking_witness :
    (GDA.send_tg (List.replicate 4001 'a') (fun _ => 200)).2 =
      GDA.split_tg (List.replicate 4001 'a') ∧
    (∀ p ∈ GDA.split_tg (List.replicate 4001 'a'), p.length ≤ 4000) ∧
    Reassembles (GDA.split_tg (List.replicate 4001 'a')) (List.replicate 4001 'a') :=
  C4_batch_chunking (List.replicate 4001 'a') (fun _ => 200)
    (by rw [List.length_replicate]; omega)

/-- **C2, counterexample.**  A 4001-character batch payload is split into
two chunks; with a notification endpoint that rejects every post (status
500), `send_tg` still returns `True` — the chunked path never checks the
responses — and the main block therefore marks every thread read. -/
theorem C2_counterexample :
    (GDA.send_tg (List.replicate 4001 'a') (fun _ => 500)).1 = true ∧
    (GDA.send_tg (List.replicate 4001 'a') (fun _ => 500)).2.length = 2 ∧
    (500 ≠ 200) ∧
    GDA.digest_all_mark (GDA.send_tg (List.replicate 4001 'a') (fun _ => 500)).1
      ["t1", "t2"] = ["t1", "t2"] := by
  have hgt : (List.replicate 4001 'a').length > 4000 := by
    rw [List.length_replicate]; omega
  have h1 : (GDA.send_tg (List.replicate 4001 'a') (fun _ => 500)).1 = true := by
    unfold GDA.send_tg
    rw [if_pos hgt]
  have h2 : (GDA.send_tg (List.replicate 4001 'a') (fun _ => 500)).2 =
      GDA.split_tg (List.replicate 4001 'a') := by
    unfold GDA.send_tg
    rw [if_pos hgt]
  refine ⟨h1, ?_, by omega, by rw [h1]; rfl⟩
  rw [h2]
  rw [split_tg_eq]
  rw [if_neg (List.ne_nil_of_length_pos (by rw [List.length_replicate]; omega)),
      if_neg (by rw [List.length_replicate]; omega)]
  have hrf : ∀ n, GDA.rfindNl (List.replicate n 'a') = none := by
    intro n
    induction n with
    | zero => rfl
    | succ n ih =>
      rw [List.replicate_succ]
      simp only [GDA.rfindNl, ih]
      rw [if_neg (by decide)]
  have hcp : GDA.cutPoint (List.replicate 4001 'a') = 4000 := by
    unfold GDA.cutPoint
    rw [List.take_replicate, show (min 4000 4001 : Nat) = 4000 from by norm_num, hrf 4000]
  rw [hcp]
  rw [List.drop_replicate, show (4001 : Nat) - 4000 = 1 from by norm_num]
  rw [show List.dropWhile (fun c => decide (c = '\n')) (List.replicate 1 'a') =
    ['a'] from by decide]
  rw [split_tg_eq]
  rw [if_neg (by decide), if_pos (by decide)]
  rfl

/-- **C2, amended.**  The mark-read gate of the batch variant: no thread
is marked read when `send_tg` reports failure, and all are marked read
when it reports success; but `send_tg` only consults the endpoint status
for payloads of at most 4000 characters (success iff the single post
returns 200) — for longer payloads it splits, posts each chunk, ignores
every response, and reports success unconditionally. -/
theorem C2_batch_gate (text : List Char) (post : Nat → Nat) (ids : List String) :
    ((GDA.send_tg text post).1 = false →
      GDA.digest_all_mark (GDA.send_tg text post).1 ids = []) ∧
    ((GDA.send_tg text post).1 = true →
      GDA.digest_all_mark (GDA.send_tg text post).1 ids = ids) ∧
    (text.length ≤ 4000 → ((GDA.send_tg text post).1 = true ↔ post 0 = 200)) ∧
    (4000 < text.length → (GDA.send_tg text post).1 = true) := by
  refine ⟨?_, ?_, ?_, ?_⟩
  · intro h; rw [h]; rfl
  · intro h; rw [h]; rfl
  · intro h4
    unfold GDA.send_tg
    rw [if_neg (by omega)]
    simp
  · intro h4
    unfold GDA.send_tg
    rw [if_pos h4]

/-- **C2, witness.**  The gate at concrete inputs: a failing short send
marks nothing; a 4001-character payload is reported sent regardless of
statuses. -/
theorem C2_batch_gate_witness :
    GDA.digest_all_mark (GDA.send_tg ['a'] (fun _ => 500)).1 ["x"] = [] ∧
    (GDA.send_tg (List.replicate 4001 'b') (fun _ => 500)).1 = true :=
  ⟨(C2_batch_gate ['a'] (fun _ => 500) ["x"]).1 (by decide),
   (C2_batch_gate (List.replicate 4001 'b') (fun _ => 500) []).2.2.2
     (by rw [List.length_replicate]; omega)⟩

/-- **C10.**  `get_email_body` (both pipeline variants, via the `cap`
parameter) uses only the first message of the fetched thread: its result
is unchanged when every later message of the thread is dropped, so
sender, subject, date, body and snippet all come from `messages[0]` and
replies are ignored. -/
theorem C10_first_message_only (decode h2t : String → String) (cap : Nat)
    (msg : GmailMessage) (rest : List GmailMessage) :
    get_email_body decode h2t cap (some ⟨msg :: rest⟩) =
      get_email_body decode h2t cap (some ⟨[msg]⟩) := rfl

theorem part_data_update_fst_stay (decode : String → String) (mime data bh : String)
    {bt : String} (hbt : bt ≠ "") :
    (part_data_update decode mime data bt bh).1 = bt := by
  unfold part_data_update
  by_cases hd : data ≠ ""
  · rw [if_pos hd, if_neg (fun h => hbt h.2)]
    by_cases hh : mime = "text/html" ∧ bh = ""
    · rw [if_pos hh]
    · rw [if_neg hh]
  · rw [if_neg hd]

theorem part_data_update_snd_stay (decode : String → String) (mime data bt : String)
    {bh : String} (hbh : bh ≠ "") :
    (part_data_update decode mime data bt bh).2 = bh := by
  unfold part_data_update
  by_cases hd : data ≠ ""
  · rw [if_pos hd]
    by_cases hp : mime = "text/plain" ∧ bt = ""
    · rw [if_pos hp]
    · rw [if_neg hp, if_neg (fun h => hbh h.2)]
  · rw [if_neg hd]

theorem part_data_update_fst_empty (decode : String → String) (mime data bh : String) :
    (part_data_update decode mime data "" bh).1 =
      (if mime = "text/plain" ∧ data ≠ "" then decode data else "") := by
  unfold part_data_update
  by_cases hd : data ≠ ""
  · rw [if_pos hd]
    by_cases hp : mime = "text/plain"
    · have hLp : mime = "text/plain" ∧ ("" : String) = "" := ⟨hp, rfl⟩
      have hRp : mime = "text/plain" ∧ data ≠ "" := ⟨hp, hd⟩
      rw [if_pos hLp, if_pos hRp]
    · have hLp : ¬(mime = "text/plain" ∧ ("" : String) = "") := fun h => hp h.1
      have hRp : ¬(mime = "text/plain" ∧ data ≠ "") := fun h => hp h.1
      rw [if_neg hLp, if_neg hRp]
      by_cases hh : mime = "text/html" ∧ bh = ""
      · rw [if_pos hh]
      · rw [if_neg hh]
  · have hRp : ¬(mime = "text/plain" ∧ data ≠ "") := fun h => hd h.2
    rw [if_neg hd, if_neg hRp]

theorem part_data_update_snd_empty (decode : String → String) (mime data bt : String) :
    (part_data_update decode mime data bt "").2 =
      (if mime = "text/html" ∧ data ≠ "" then decode data else "") := by
  unfold part_data_update
  by_cases hd : data ≠ ""
  · rw [if_pos hd]
    by_cases hp : mime = "text/plain" ∧ bt = ""
    · have hRh : ¬(mime = "text/html" ∧ data ≠ "") :=
        fun h => absurd (hp.1.symm.trans h.1) (by decide)
      rw [if_pos hp, if_neg hRh]
    · rw [if_neg hp]
      by_cases hh : mime = "text/html"
      · have hLh : mime = "text/html" ∧ ("" : String) = "" := ⟨hh, rfl⟩
        have hRh : mime = "text/html" ∧ data ≠ "" := ⟨hh, hd⟩
        rw [if_pos hLh, if_pos hRh]
      · have hLh : ¬(mime = "text/html" ∧ ("" : String) = "") := fun h => hh h.1
        have hRh : ¬(mime = "text/html" ∧ data ≠ "") := fun h => hh h.1
        rw [if_neg hLh, if_neg hRh]
  · have hRh : ¬(mime = "text/html" ∧ data ≠ "") := fun h => hd h.2
    rw [if_neg hd, if_neg hRh]

mutual
theorem extract_part_bt_stay (decode : String → String) (p : MimePart) (bt bh : String)
    (hbt : bt ≠ "") : (extract_part decode p bt bh).1 = bt :=
  match p with
  | .mk mime data children => by
    cases children with
    | none =>
      show (part_data_update decode mime data bt bh).1 = bt
      exact part_data_update_fst_stay decode mime data bh hbt
    | some l =>
      show (extract_parts decode l (part_data_update decode mime data bt bh).1
        (part_data_update decode mime data bt bh).2).1 = bt
      rw [part_data_update_fst_stay decode mime data bh hbt]
      exact extract_parts_bt_stay decode l bt _ hbt

theorem extract_parts_bt_stay (decode : String → String) (l : List MimePart) (bt bh : String)
    (hbt : bt ≠ "") : (extract_parts decode l bt bh).1 = bt :=
  match l with
  | [] => rfl
  | p :: ps => by
    show (extract_parts decode ps (extract_part decode p bt bh).1
      (extract_part decode p bt bh).2).1 = bt
    rw [extract_part_bt_stay decode p bt bh hbt]
    exact extract_parts_bt_stay decode ps bt _ hbt
end

mutual
theorem extract_part_bh_stay (decode : String → String) (p : MimePart) (bt bh : String)
    (hbh : bh ≠ "") : (extract_part decode p bt bh).2 = bh :=
  match p with
  | .mk mime data children => by
    cases children with
    | none =>
      show (part_data_update decode mime data bt bh).2 = bh
      exact part_data_update_snd_stay decode mime data bt hbh
    | some l =>
      show (extract_parts decode l (part_data_update decode mime data bt bh).1
        (part_data_update decode mime data bt bh).2).2 = bh
      rw [part_data_update_snd_stay decode mime data bt hbh]
      exact extract_parts_bh_stay decode l _ bh hbh

theorem extract_parts_bh_stay (decode : String → String) (l : List MimePart) (bt bh : String)
    (hbh : bh ≠ "") : (extract_parts decode l bt bh).2 = bh :=
  match l with
  | [] => rfl
  | p :: ps => by
    show (extract_parts decode ps (extract_part decode p bt bh).1
      (extract_part decode p bt bh).2).2 = bh
    rw [extract_part_bh_stay decode p bt bh hbh]
    exact extract_parts_bh_stay decode ps _ bh hbh
end

mutual
theorem first_plain_part_ne (p : MimePart) {d : String}
    (h : first_plain_part p = some d) : d ≠ "" :=
  match p with
  | .mk mime data children => by
    cases children with
    | none =>
      have h' : (if mime = "text/plain" ∧ data ≠ "" then some data else none) = some d := h
      by_cases hp : mime = "text/plain" ∧ data ≠ ""
      · rw [if_pos hp] at h'
        cases h'
        exact hp.2
      · rw [if_neg hp] at h'
        cases h'
    | some l =>
      have h' : (if mime = "text/plain" ∧ data ≠ "" then some data
          else first_plain_list l) = some d := h
      by_cases hp : mime = "text/plain" ∧ data ≠ ""
      · rw [if_pos hp] at h'
        cases h'
        exact hp.2
      · rw [if_neg hp] at h'
        exact first_plain_list_ne l h'

theorem first_plain_list_ne (l : List MimePart) {d : String}
    (h : first_plain_list l = some d) : d ≠ "" :=
  match l with
  | [] => by cases h
  | p :: ps => by
    rw [first_plain_list] at h
    cases hfp : first_plain_part p with
    | some d' =>
      rw [hfp] at h
      cases h
      exact first_plain_part_ne p hfp
    | none =>
      rw [hfp] at h
      exact first_plain_list_ne ps h
end

mutual
theorem first_html_part_ne (p : MimePart) {d : String}
    (h : first_html_part p = some d) : d ≠ "" :=
  match p with
  | .mk mime data children => by
    cases children with
    | none =>
      have h' : (if mime = "text/html" ∧ data ≠ "" then some data else none) = some d := h
      by_cases hp : mime = "text/html" ∧ data ≠ ""
      · rw [if_pos hp] at h'
        cases h'
        exact hp.2
      · rw [if_neg hp] at h'
        cases h'
    | some l =>
      have h' : (if mime = "text/html" ∧ data ≠ "" then some data
          else first_html_list l) = some d := h
      by_cases hp : mime = "text/html" ∧ data ≠ ""
      · rw [if_pos hp] at h'
        cases h'
        exact hp.2
      · rw [if_neg hp] at h'
        exact first_html_list_ne l h'

theorem first_html_list_ne (l : List MimePart) {d : String}
    (h : first_html_list l = some d) : d ≠ "" :=
  match l with
  | [] => by cases h
  | p :: ps => by
    rw [first_html_list] at h
    cases hfp : first_html_part p with
    | some d' =>
      rw [hfp] at h
      cases h
      exact first_html_part_ne p hfp
    | none =>
      rw [hfp] at h
      exact first_html_list_ne ps h
end

mutual
theorem extract_part_bt_empty (decode : String → String)
    (hdec : ∀ s, s ≠ "" → decode s ≠ "") (p : MimePart) (bh : String) :
    (extract_part decode p "" bh).1 = (first_plain_part p).elim "" decode :=
  match p with
  | .mk mime data children => by
    cases children with
    | none =>
      show (part_data_update decode mime data "" bh).1 =
        ((if mime = "text/plain" ∧ data ≠ "" then some data else none).elim "" decode)
      rw [part_data_update_fst_empty]
      by_cases hp : mime = "text/plain" ∧ data ≠ ""
      · rw [if_pos hp, if_pos hp]
        rfl
      · rw [if_neg hp, if_neg hp]
        rfl
    | some l =>
      show (extract_parts decode l (part_data_update decode mime data "" bh).1
          (part_data_update decode mime data "" bh).2).1 =
        ((if mime = "text/plain" ∧ data ≠ "" then some data
          else first_plain_list l).elim "" decode)
      by_cases hp : mime = "text/plain" ∧ data ≠ ""
      · have hu1 : (part_data_update decode mime data "" bh).1 = decode data := by
          rw [part_data_update_fst_empty, if_pos hp]
        rw [hu1, extract_parts_bt_stay decode l (decode data) _ (hdec data hp.2),
          if_pos hp]
        rfl
      · have hu1 : (part_data_update decode mime data "" bh).1 = "" := by
          rw [part_data_update_fst_empty, if_neg hp]
        rw [hu1, if_neg hp]
        exact extract_parts_bt_empty decode hdec l _

theorem extract_parts_bt_empty (decode : String → String)
    (hdec : ∀ s, s ≠ "" → decode s ≠ "") (l : List MimePart) (bh : String) :
    (extract_parts decode l "" bh).1 = (first_plain_list l).elim "" decode :=
  match l with
  | [] => rfl
  | p :: ps => by
    show (extract_parts decode ps (extract_part decode p "" bh).1
        (extract_part decode p "" bh).2).1 = (first_plain_list (p :: ps)).elim "" decode
    rw [first_plain_list]
    cases hfp : first_plain_part p with
    | some d =>
      have ha1 : (extract_part decode p "" bh).1 = decode d := by
        rw [extract_part_bt_empty decode hdec p bh, hfp]
        rfl
      rw [ha1,
        extract_parts_bt_stay decode ps (decode d) _ (hdec d (first_plain_part_ne p hfp))]
      rfl
    | none =>
      have ha1 : (extract_part decode p "" bh).1 = "" := by
        rw [extract_part_bt_empty decode hdec p bh, hfp]
        rfl
      rw [ha1]
      exact extract_parts_bt_empty decode hdec ps _
end

mutual
theorem extract_part_bh_empty (decode : String → String)
    (hdec : ∀ s, s ≠ "" → decode s ≠ "") (p : MimePart) (bt : String) :
    (extract_part decode p bt "").2 = (first_html_part p).elim "" decode :=
  match p with
  | .mk mime data children => by
    cases children with
    | none =>
      show (part_data_update decode mime data bt "").2 =
        ((if mime = "text/html" ∧ data ≠ "" then some data else none).elim "" decode)
      rw [part_data_update_snd_empty]
      by_cases hh : mime = "text/html" ∧ data ≠ ""
      · rw [if_pos hh, if_pos hh]
        rfl
      · rw [if_neg hh, if_neg hh]
        rfl
    | some l =>
      show (extract_parts decode l (part_data_update decode mime data bt "").1
          (part_data_update decode mime data bt "").2).2 =
        ((if mime = "text/html" ∧ data ≠ "" then some data
          else first_html_list l).elim "" decode)
      by_cases hh : mime = "text/html" ∧ data ≠ ""
      · have hu2 : (part_data_update decode mime data bt "").2 = decode data := by
          rw [part_data_update_snd_empty, if_pos hh]
        rw [hu2, extract_parts_bh_stay decode l _ (decode data) (hdec data hh.2),
          if_pos hh]
        rfl
      · have hu2 : (part_data_update decode mime data bt "").2 = "" := by
          rw [part_data_update_snd_empty, if_neg hh]
        rw [hu2, if_neg hh]
        exact extract_parts_bh_empty decode hdec l _

theorem extract_parts_bh_empty (decode : String → String)
    (hdec : ∀ s, s ≠ "" → decode s ≠ "") (l : List MimePart) (bt : String) :
    (extract_parts decode l bt "").2 = (first_html_list l).elim "" decode :=
  match l with
  | [] => rfl
  | p :: ps => by
    show (extract_parts decode ps (extract_part decode p bt "").1
        (extract_part decode p bt "").2).2 = (first_html_list (p :: ps)).elim "" decode
    rw [first_html_list]
    cases hfh : first_html_part p with
    | some d =>
      have ha2 : (extract_part decode p bt "").2 = decode d := by
        rw [extract_part_bh_empty decode hdec p bt, hfh]
        rfl
      rw [ha2,
        extract_parts_bh_stay decode ps _ (decode d) (hdec d (first_html_part_ne p hfh))]
      rfl
    | none =>
      have ha2 : (extract_part decode p bt "").2 = "" := by
        rw [extract_part_bh_empty decode hdec p bt, hfh]
        rfl
      rw [ha2]
      exact extract_parts_bh_empty decode hdec ps _
end

/-- **C8.**  For a (possibly nested) multipart payload, body extraction
returns the decoded content of the first `text/plain` part with data in
pre-order traversal (capped); an HTML part is converted with `h2t` only
when no `text/plain` part with data exists anywhere in the part tree, in
which case the first `text/html` part with data is used.  (`decode` maps
non-empty base64 data to non-empty text.) -/
theorem C8_first_plain_preferred (decode h2t : String → String) (cap : Nat)
    (hdec : ∀ s, s ≠ "" → decode s ≠ "")
    (hs : List (String × String)) (mime0 data0 : String) (l : List MimePart)
    (snip : String) (rest : List GmailMessage) :
    (∀ d, first_plain_list l = some d →
      Option.map EmailData.body
          (get_email_body decode h2t cap
            (some ⟨⟨⟨hs, mime0, data0, some l⟩, snip⟩ :: rest⟩)) =
        some ((decode d).take cap)) ∧
    (first_plain_list l = none → ∀ d, first_html_list l = some d →
      Option.map EmailData.body
          (get_email_body decode h2t cap
            (some ⟨⟨⟨hs, mime0, data0, some l⟩, snip⟩ :: rest⟩)) =
        some ((h2t (extract_parts decode l "" "").2).take cap) ∧
      (extract_parts decode l "" "").2 = decode d) := by
  have hbt : (extract_parts decode l "" "").1 = (first_plain_list l).elim "" decode :=
    extract_parts_bt_empty decode hdec l ""
  have hbh : (extract_parts decode l "" "").2 = (first_html_list l).elim "" decode :=
    extract_parts_bh_empty decode hdec l ""
  have hmap : Option.map EmailData.body
      (get_email_body decode h2t cap
        (some ⟨⟨⟨hs, mime0, data0, some l⟩, snip⟩ :: rest⟩)) =
      some ((if (extract_parts decode l "" "").1 = "" ∧
               (extract_parts decode l "" "").2 ≠ ""
             then h2t (extract_parts decode l "" "").2
             else (extract_parts decode l "" "").1).take cap) := rfl
  constructor
  · intro d hd
    have hbtv : (extract_parts decode l "" "").1 = decode d := by
      rw [hbt, hd]
      rfl
    rw [hmap, hbtv]
    rw [if_neg (fun hc => hdec d (first_plain_list_ne l hd) hc.1)]
  · intro hnone d hd
    have hbtv : (extract_parts decode l "" "").1 = "" := by
      rw [hbt, hnone]
      rfl
    have hbhv : (extract_parts decode l "" "").2 = decode d := by
      rw [hbh, hd]
      rfl
    refine ⟨?_, hbhv⟩
    rw [hmap, hbtv]
    rw [if_pos ⟨rfl, by rw [hbhv]; exact hdec d (first_html_list_ne l hd)⟩]

/-- **C8, witness.**  A nested multipart tree whose HTML part precedes a
plain-text part in pre-order: the plain-text content is chosen. -/
theorem C8_first_plain_preferred_witness :
    Option.map EmailData.body
        (get_email_body id id 100
          (some ⟨[⟨⟨[], "multipart/mixed", "",
            some [MimePart.mk "multipart/alternative" ""
              (some [MimePart.mk "text/html" "H" none,
                     MimePart.mk "text/plain" "P" none])]⟩, "sn"⟩]⟩)) =
      some (("P" : String).take 100) :=
  (C8_first_plain_preferred id id 100 (fun _ h => h) [] "multipart/mixed" ""
    [MimePart.mk "multipart/alternative" ""
      (some [MimePart.mk "text/html" "H" none, MimePart.mk "text/plain" "P" none])]
    "sn" []).1 "P" rfl

/-- **C7.**  When the Mail Reader returns empty for a not-yet-seen
message (`get_email_body` gives `{}`), `process_email` adds the
identifier to the seen store, attempts no notification, and performs no
read/unread mutation on the mail account. -/
theorem C7_empty_read_acknowledged (bot_token gemini_key deepseek_key : String)
    (get_body : String → Option EmailData) (fetch : String → Option String)
    (gnet dnet : String → Option String) (post : Nat → Nat)
    (mid : String) (seen : List String)
    (hseen : mid ∉ seen) (hempty : get_body mid = none) :
    (GD.process_email bot_token gemini_key deepseek_key get_body fetch gnet dnet post
        mid seen).seen_ids = seen ++ [mid] ∧
    (GD.process_email bot_token gemini_key deepseek_key get_body fetch gnet dnet post
        mid seen).sent_text = none ∧
    (GD.process_email bot_token gemini_key deepseek_key get_body fetch gnet dnet post
        mid seen).marked_read = false := by
  unfold GD.process_email
  rw [if_neg hseen, hempty]
  exact ⟨by unfold GD.addSeen; rw [if_neg hseen], rfl, rfl⟩

/-- **C7, witness.**  The empty-read path at a concrete message. -/
theorem C7_empty_read_acknowledged_witness :
    (GD.process_email "tok" "" "" (fun _ => none) (fun _ => none)
        (fun _ => none) (fun _ => none) (fun _ => 200) "m7" ["old"]).seen_ids =
      ["old"] ++ ["m7"] ∧
    (GD.process_email "tok" "" "" (fun _ => none) (fun _ => none)
        (fun _ => none) (fun _ => none) (fun _ => 200) "m7" ["old"]).sent_text = none ∧
    (GD.process_email "tok" "" "" (fun _ => none) (fun _ => none)
        (fun _ => none) (fun _ => none) (fun _ => 200) "m7" ["old"]).marked_read = false :=
  C7_empty_read_acknowledged "tok" "" "" (fun _ => none) (fun _ => none)
    (fun _ => none) (fun _ => none) (fun _ => 200) "m7" ["old"] (by decide) rfl

/-- **C1, counterexample.**  A processed message whose notification send
fails (the endpoint answers 500 to both the HTML attempt and the
plain-text retry, so `send_tg` returns `False`): the thread is not marked
read, **but the message identifier is still added to the seen-id store**
— `seen_ids.add(msg_id)` runs unconditionally after the send — so the
message will not be retried on the next run, contrary to the claim that
a failed delivery leaves the seen-id store untouched. -/
theorem C1_counterexample :
    (GD.process_email "tok" "" "" (fun _ => some ⟨"s@x", "subj", "d", "", "snip"⟩)
        (fun _ => none) (fun _ => none) (fun _ => none) (fun _ => 500)
        "id1" []).send_ok = false ∧
    (GD.process_email "tok" "" "" (fun _ => some ⟨"s@x", "subj", "d", "", "snip"⟩)
        (fun _ => none) (fun _ => none) (fun _ => none) (fun _ => 500)
        "id1" []).marked_read = false ∧
    "id1" ∈ (GD.process_email "tok" "" "" (fun _ => some ⟨"s@x", "subj", "d", "", "snip"⟩)
        (fun _ => none) (fun _ => none) (fun _ => none) (fun _ => 500)
        "id1" []).seen_ids := by
  refine ⟨rfl, rfl, ?_⟩
  show "id1" ∈ GD.addSeen [] "id1"
  decide

/-- **C1, amended.**  The delivery gate that actually holds in
`process_email`: for a fresh message with readable content, the thread is
marked read exactly when `send_tg` reported success, a notification send
is always attempted — but the seen-id store receives the identifier
unconditionally, whether or not the send succeeded. -/
theorem C1_delivery_gate (bot_token gemini_key deepseek_key : String)
    (get_body : String → Option EmailData) (fetch : String → Option String)
    (gnet dnet : String → Option String) (post : Nat → Nat)
    (mid : String) (seen : List String) (e : EmailData)
    (hseen : mid ∉ seen) (hbody : get_body mid = some e) :
    (GD.process_email bot_token gemini_key deepseek_key get_body fetch gnet dnet post
        mid seen).marked_read =
      (GD.process_email bot_token gemini_key deepseek_key get_body fetch gnet dnet post
        mid seen).send_ok ∧
    (GD.process_email bot_token gemini_key deepseek_key get_body fetch gnet dnet post
        mid seen).seen_ids = seen ++ [mid] ∧
    (GD.process_email bot_token gemini_key deepseek_key get_body fetch gnet dnet post
        mid seen).sent_text ≠ none := by
  unfold GD.process_email
  rw [if_neg hseen, hbody]
  refine ⟨rfl, by unfold GD.addSeen; rw [if_neg hseen], by intro h; cases h⟩

/-- **C1, witness.**  The amended gate at a concrete successful send. -/
theorem C1_delivery_gate_witness :
    (GD.process_email "tok" "" "" (fun _ => some ⟨"a", "b", "c", "", "d"⟩)
        (fun _ => none) (fun _ => none) (fun _ => none) (fun _ => 200)
        "m1" []).marked_read =
      (GD.process_email "tok" "" "" (fun _ => some ⟨"a", "b", "c", "", "d"⟩)
        (fun _ => none) (fun _ => none) (fun _ => none) (fun _ => 200)
        "m1" []).send_ok ∧
    (GD.process_email "tok" "" "" (fun _ => some ⟨"a", "b", "c", "", "d"⟩)
        (fun _ => none) (fun _ => none) (fun _ => none) (fun _ => 200)
        "m1" []).seen_ids = [] ++ ["m1"] ∧
    (GD.process_email "tok" "" "" (fun _ => some ⟨"a", "b", "c", "", "d"⟩)
        (fun _ => none) (fun _ => none) (fun _ => none) (fun _ => 200)
        "m1" []).sent_text ≠ none :=
  C1_delivery_gate "tok" "" "" (fun _ => some ⟨"a", "b", "c", "", "d"⟩)
    (fun _ => none) (fun _ => none) (fun _ => none) (fun _ => 200)
    "m1" [] ⟨"a", "b", "c", "", "d"⟩ (by decide) rfl

/-- **C6.**  Provider fallback and the raw-snippet path: whenever the
Gemini call yields no truthy result, `call_ai` invokes DeepSeek before
giving up; and when every provider yields no truthy result for every
prompt, `process_email` still hands `send_tg` the raw-snippet
notification text built from the message instead of aborting. -/
theorem C6_provider_fallback :
    (∀ (gemini_key deepseek_key : String) (gnet dnet : String → Option String)
        (prompt : String),
      GD.truthyStr (GD.call_gemini gemini_key gnet prompt) = false →
      (GD.call_ai gemini_key deepseek_key gnet dnet prompt).deepseek_called = true) ∧
    (∀ (bot_token gemini_key deepseek_key : String)
        (get_body : String → Option EmailData) (fetch : String → Option String)
        (gnet dnet : String → Option String) (post : Nat → Nat)
        (mid : String) (seen : List String) (e : EmailData),
      mid ∉ seen → get_body mid = some e →
      (∀ prompt, GD.truthyStr (GD.call_gemini gemini_key gnet prompt) = false) →
      (∀ prompt, GD.truthyStr (GD.call_deepseek deepseek_key dnet prompt) = false) →
      (GD.process_email bot_token gemini_key deepseek_key get_body fetch gnet dnet post
          mid seen).sent_text =
        some ("📧 新邮件\n发件人: " ++ e.sender ++ "\n主题: " ++ e.subject ++ "\n\n"
          ++ e.snippet.take 500)) := by
  constructor
  · intro gemini_key deepseek_key gnet dnet prompt hg
    unfold GD.call_ai
    by_cases hd : GD.truthyStr (GD.call_deepseek deepseek_key dnet prompt) = true
    · simp [hg, hd]
    · simp [hg, hd]
  · intro bot_token gemini_key deepseek_key get_body fetch gnet dnet post mid seen e
      hseen hbody hg hd
    have hai : ∀ prompt, (GD.call_ai gemini_key deepseek_key gnet dnet prompt).result
        = none := by
      intro prompt
      unfold GD.call_ai
      simp [hg prompt, hd prompt]
    unfold GD.process_email
    rw [if_neg hseen, hbody]
    simp only [hai]

/-- **C6, witness.**  Both parts at concrete inputs: unconfigured
providers trigger the fallback call and a raw-snippet send. -/
theorem C6_provider_fallback_witness :
    (GD.call_ai "" "" (fun _ => none) (fun _ => none) "p").deepseek_called = true ∧
    (GD.process_email "tok" "" "" (fun _ => some ⟨"F", "S", "D", "", "SN"⟩)
        (fun _ => none) (fun _ => none) (fun _ => none) (fun _ => 200)
        "m6" []).sent_text =
      some ("📧 新邮件\n发件人: " ++ ("F" : String) ++ "\n主题: " ++ ("S" : String)
        ++ "\n\n" ++ ("SN" : String).take 500) :=
  ⟨C6_provider_fallback.1 "" "" (fun _ => none) (fun _ => none) "p" rfl,
   C6_provider_fallback.2 "tok" "" "" (fun _ => some ⟨"F", "S", "D", "", "SN"⟩)
     (fun _ => none) (fun _ => none) (fun _ => none) (fun _ => 200) "m6" []
     ⟨"F", "S", "D", "", "SN"⟩ (by decide) rfl (fun _ => rfl) (fun _ => rfl)⟩

theorem firstPerKey_nil : firstPerKey [] = [] := by
  rw [firstPerKey]

theorem firstPerKey_cons (u : List Char) (L : List (List Char)) :
    firstPerKey (u :: L) = u :: firstPerKey (L.filter (fun v => urlKey v ≠ urlKey u)) := by
  rw [firstPerKey]

theorem extract_go_firstPerKey :
    ∀ (us seen : List (List Char)),
      extract_article_urls_go us seen =
        firstPerKey ((us.map rstrip_tail).filter
          (fun u => url_accepted u && decide (urlKey u ∉ seen)))
  | [], seen => by
    show ([] : List (List Char)) = firstPerKey []
    rw [firstPerKey_nil]
  | url :: rest, seen => by
    have ih := extract_go_firstPerKey rest
    simp only [extract_article_urls_go, List.map_cons, List.filter_cons]
    by_cases h20 : (rstrip_tail url).length < 20
    · rw [if_pos h20]
      rw [show (url_accepted (rstrip_tail url) &&
          decide (urlKey (rstrip_tail url) ∉ seen)) = false from by
        unfold url_accepted
        simp [h20]]
      rw [if_neg (by simp)]
      exact ih seen
    · rw [if_neg h20]
      by_cases htr : is_tracking_url (rstrip_tail url) = true
      · rw [if_pos htr]
        rw [show (url_accepted (rstrip_tail url) &&
            decide (urlKey (rstrip_tail url) ∉ seen)) = false from by
          unfold url_accepted
          simp [htr]]
        rw [if_neg (by simp)]
        exact ih seen
      · rw [if_neg htr]
        by_cases hme : has_media_ext (rstrip_tail url) = true
        · rw [if_pos hme]
          rw [show (url_accepted (rstrip_tail url) &&
              decide (urlKey (rstrip_tail url) ∉ seen)) = false from by
            unfold url_accepted
            simp [hme]]
          rw [if_neg (by simp)]
          exact ih seen
        · rw [if_neg hme]
          by_cases hk : urlKey (rstrip_tail url) ∈ seen
          · rw [if_pos hk]
            rw [show (url_accepted (rstrip_tail url) &&
                decide (urlKey (rstrip_tail url) ∉ seen)) = false from by
              simp [hk]]
            rw [if_neg (by simp)]
            exact ih seen
          · rw [if_neg hk]
            rw [show (url_accepted (rstrip_tail url) &&
                decide (urlKey (rstrip_tail url) ∉ seen)) = true from by
              unfold url_accepted
              simp [h20, htr, hme, hk]]
            rw [if_pos rfl]
            rw [firstPerKey_cons, ih (urlKey (rstrip_tail url) :: seen)]
            congr 2
            rw [List.filter_filter]
            refine List.filter_congr ?_
            intro v _
            by_cases ha : url_accepted v = true <;>
              by_cases h1 : urlKey v = urlKey (rstrip_tail url) <;>
              by_cases h2 : urlKey v ∈ seen <;>
              simp [ha, h1, h2, List.mem_cons]

theorem firstPerKey_sublist (l : List (List Char)) :
    List.Sublist (firstPerKey l) l := by
  cases l with
  | nil =>
    rw [firstPerKey_nil]
  | cons u rest =>
    rw [firstPerKey_cons]
    exact List.Sublist.cons₂ u
      ((firstPerKey_sublist _).trans (List.filter_sublist _))
termination_by l.length
decreasing_by
  simp only [List.length_cons]
  exact Nat.lt_succ_of_le (List.length_filter_le _ _)

theorem firstPerKey_pairwise (l : List (List Char)) :
    (firstPerKey l).Pairwise (fun u v => urlKey u ≠ urlKey v) := by
  cases l with
  | nil =>
    rw [firstPerKey_nil]
    exact List.Pairwise.nil
  | cons u rest =>
    rw [firstPerKey_cons]
    refine List.pairwise_cons.mpr ⟨?_, firstPerKey_pairwise _⟩
    intro v hv
    have hv' : v ∈ rest.filter (fun v => urlKey v ≠ urlKey u) :=
      (firstPerKey_sublist _).subset hv
    have hdec := List.of_mem_filter hv'
    intro hEq
    rw [hEq] at hdec
    simp at hdec
termination_by l.length
decreasing_by
  simp only [List.length_cons]
  exact Nat.lt_succ_of_le (List.length_filter_le _ _)

set_option maxRecDepth 10000 in
/-- **C5.**  URL extraction and deduplication: for the body containing
the example article URL and the mailchimp tracking URL only the first is
returned; two URLs sharing network-location and path but differing query
strings yield only the first-seen one; and in general
`extract_article_urls K` returns the first-seen URL of each
(netloc, path) key among the accepted candidates, in first-appearance
order, capped to the first `K` (K = 3 per-message, K = 2 batch), with
pairwise-distinct keys. -/
theorem C5_url_filter_dedup :
    (extract_article_urls 3
        ("Read https://example.com/article?x=1 and https://click.mailchimp.com/track?u=2 now".toList) =
      ["https://example.com/article?x=1".toList]) ∧
    (extract_article_urls 3
        ("A https://example.com/article?x=1 B https://example.com/article?x=2 C".toList) =
      ["https://example.com/article?x=1".toList]) ∧
    (∀ (max_urls : Nat) (body_text : List Char),
      extract_article_urls max_urls body_text =
        (firstPerKey (accepted_urls body_text)).take max_urls) ∧
    (∀ (max_urls : Nat) (body_text : List Char),
      (extract_article_urls max_urls body_text).length ≤ max_urls) ∧
    (∀ (max_urls : Nat) (body_text : List Char),
      (extract_article_urls max_urls body_text).Pairwise
        (fun u v => urlKey u ≠ urlKey v)) := by
  have hchar : ∀ (max_urls : Nat) (body_text : List Char),
      extract_article_urls max_urls body_text =
        (firstPerKey (accepted_urls body_text)).take max_urls := by
    intro max_urls body_text
    unfold extract_article_urls accepted_urls
    rw [extract_go_firstPerKey]
    congr 2
    refine List.filter_congr ?_
    intro v _
    simp
  refine ⟨by decide, by decide, hchar, ?_, ?_⟩
  · intro max_urls body_text
    rw [hchar]
    exact List.length_take_le _ _
  · intro max_urls body_text
    rw [hchar]
    exact List.Pairwise.sublist (List.take_sublist _ _) (firstPerKey_pairwise _)
